import Mathlib

/-!
Verification of the `universal_nft` Solana program
(`programs/universal_nft/src/lib.rs`).

Shallow embedding conventions:
* Machine integers (`u64`, `u32`) are `Nat` with explicit `2 ^ 64` / `2 ^ 32`
  bounds where overflow or wire width matters.
* `Pubkey` and `[u8; 32]` values are `List Nat` of length 32 with entries
  below 256.
* Rust `String` values are their UTF-8 byte lists (`List Nat`); `s.len()` in
  the source is byte length, which is `List.length` here.
* Each Anchor instruction handler is a pure function returning
  `Except NftError _`; an error result models the transaction aborting with
  no persisted state (Solana rolls back every account write of a failed
  instruction).
* Cross-program invocations into the SPL token / associated-token / metadata
  programs are external collaborators; they are modelled as succeeding, since
  no claim depends on their failure modes.
-/

deriving instance DecidableEq for Except

set_option maxRecDepth 100000

namespace UniversalNft

/-- Little-endian byte list of width `k` for the value `n`
(Borsh integer encoding: `u32` is `leBytes 4`, `u64` is `leBytes 8`). -/
def leBytes : Nat → Nat → List Nat
  | 0, _ => []
  | k + 1, n => n % 256 :: leBytes k (n / 256)

/-- Value of a little-endian byte list. -/
def leVal : List Nat → Nat
  | [] => 0
  | b :: rest => b + 256 * leVal rest

/-- Read exactly `n` bytes from the front of the input, returning the
bytes and the remainder; fails when fewer than `n` bytes remain
(Borsh deserialization of fixed-size data, e.g. `Pubkey` / `[u8; 32]`). -/
def readBytes (n : Nat) (bs : List Nat) : Option (List Nat × List Nat) :=
  if n ≤ bs.length then some (bs.take n, bs.drop n) else none

/-- Read a `k`-byte little-endian unsigned integer (Borsh `u32`/`u64`). -/
def readUInt (k : Nat) (bs : List Nat) : Option (Nat × List Nat) :=
  match readBytes k bs with
  | none => none
  | some (v, rest) => some (leVal v, rest)

/-- Read a Borsh string: a 4-byte little-endian length prefix followed by
that many content bytes.  (Rust Borsh additionally validates UTF-8; string
content is modelled as raw bytes here, which only widens the set of accepted
payloads and is irrelevant to every claim.) -/
def readString (bs : List Nat) : Option (List Nat × List Nat) :=
  match readUInt 4 bs with
  | none => none
  | some (len, rest) => readBytes len rest

/-- The `MessageType` enum of the source (`Transfer | Unlock`). -/
inductive MessageType where
  | Transfer
  | Unlock
deriving DecidableEq

/-- Borsh enum tag of a `MessageType` (one byte, variant index). -/
def MessageType.tag : MessageType → Nat
  | .Transfer => 0
  | .Unlock => 1

/-- Read a Borsh `MessageType`: one tag byte, `0 => Transfer`,
`1 => Unlock`, anything else is a deserialization error. -/
def readMessageType (bs : List Nat) : Option (MessageType × List Nat) :=
  match bs with
  | [] => none
  | b :: rest =>
    if b = 0 then some (MessageType.Transfer, rest)
    else if b = 1 then some (MessageType.Unlock, rest)
    else none

/-- The `CrossChainMessage` struct of the source.  Field order matters: it is
the Borsh serialization order. -/
structure CrossChainMessage where
  message_type : MessageType
  mint : List Nat
  recipient : List Nat
  metadata_uri : List Nat
  name : List Nat
  symbol : List Nat
  nonce : Nat
deriving DecidableEq

/-- Borsh length-prefixed byte string: `u32` little-endian length, then the
content bytes. -/
def lenPrefixed (s : List Nat) : List Nat := leBytes 4 s.length ++ s

/-- Borsh serialization of a `CrossChainMessage`
(`message.try_to_vec()` in the source): tag byte, 32-byte mint, 32-byte
recipient, three length-prefixed strings, 8-byte little-endian nonce. -/
def CrossChainMessage.encode (m : CrossChainMessage) : List Nat :=
  m.message_type.tag ::
    (m.mint ++ m.recipient ++ lenPrefixed m.metadata_uri ++ lenPrefixed m.name ++
      lenPrefixed m.symbol ++ leBytes 8 m.nonce)

/-- Sequential Borsh parse of a `CrossChainMessage`, returning the value and
the unconsumed remainder. -/
def parseMessage (bs : List Nat) : Option (CrossChainMessage × List Nat) :=
  match readMessageType bs with
  | none => none
  | some (t, r1) =>
    match readBytes 32 r1 with
    | none => none
    | some (mintBytes, r2) =>
      match readBytes 32 r2 with
      | none => none
      | some (recipientBytes, r3) =>
        match readString r3 with
        | none => none
        | some (uriBytes, r4) =>
          match readString r4 with
          | none => none
          | some (nameBytes, r5) =>
            match readString r5 with
            | none => none
            | some (symbolBytes, r6) =>
              match readUInt 8 r6 with
              | none => none
              | some (nonceVal, r7) =>
                some ({ message_type := t, mint := mintBytes,
                        recipient := recipientBytes, metadata_uri := uriBytes,
                        name := nameBytes, symbol := symbolBytes,
                        nonce := nonceVal }, r7)

/-- `CrossChainMessage::try_from_slice` of the source: parse the whole
buffer and reject any payload with unconsumed trailing bytes (Borsh
`try_from_slice` requires the input to be fully consumed). -/
def CrossChainMessage.try_from_slice (bs : List Nat) : Option CrossChainMessage :=
  match parseMessage bs with
  | some (m, []) => some m
  | _ => none

/-- Well-formedness of a `CrossChainMessage` as the Rust type system imposes
it: 32-byte `Pubkey`/`[u8; 32]` fields with byte entries, string fields of
byte length below `2 ^ 32` with byte entries, and a `u64` nonce. -/
def wfMessage (m : CrossChainMessage) : Prop :=
  m.mint.length = 32 ∧ m.recipient.length = 32 ∧
    m.metadata_uri.length < 2 ^ 32 ∧ m.name.length < 2 ^ 32 ∧
    m.symbol.length < 2 ^ 32 ∧ m.nonce < 2 ^ 64 ∧
    (∀ b ∈ m.mint, b < 256) ∧ (∀ b ∈ m.recipient, b < 256) ∧
    (∀ b ∈ m.metadata_uri, b < 256) ∧ (∀ b ∈ m.name, b < 256) ∧
    (∀ b ∈ m.symbol, b < 256)

instance (m : CrossChainMessage) : Decidable (wfMessage m) := by
  unfold wfMessage; infer_instance

/-- The `NftError` error enum of the source (`#[error_code]`). -/
inductive NftError where
  | Unauthorized
  | InvalidMessage
  | TokenNotFound
  | TokenLocked
  | TokenNotLocked
  | InvalidNonce
  | InvalidRecipient
  | InvalidMetadata
  | Overflow
deriving DecidableEq

/-- The `NftProgramState` singleton account of the source. -/
structure NftProgramState where
  authority : List Nat
  gateway : List Nat
  total_supply : Nat
  nonce : Nat
  bump : Nat
deriving DecidableEq

/-- The `NftInfo` per-asset account of the source. -/
structure NftInfo where
  mint : List Nat
  owner : List Nat
  metadata_uri : List Nat
  name : List Nat
  symbol : List Nat
  is_locked : Bool
  cross_chain_recipient : List Nat
  bump : Nat
deriving DecidableEq

/-- The hard-coded gateway program id declared in the source's `gateway`
module (`declare_id!("ZETAjseVjuFsxdRxo6MmTCvqFwb3ZHUx56Co3vCmGis")`, the
`not(feature = "dev")` branch), as its 32 raw bytes.  Note this is a
compile-time constant, independent of the `gateway` field stored in
`NftProgramState` at initialization. -/
def gatewayID : List Nat :=
  [8, 65, 203, 144, 199, 193, 118, 54, 162, 30, 203, 71, 213, 37, 154, 61,
   31, 234, 207, 90, 76, 176, 123, 64, 244, 85, 122, 53, 204, 91, 107, 200]

/-- `u64::checked_add` on the `Nat` model: `none` exactly when the sum
leaves the `u64` range. -/
def u64CheckedAdd (a b : Nat) : Option Nat :=
  if a + b < 2 ^ 64 then some (a + b) else none

/-- `Pubkey::try_from` on a `[u8; 32]` value.  In the source this goes
through the blanket `TryFrom` impl derived from `From<[u8; 32]> for Pubkey`,
whose error type is `Infallible`: it never fails. -/
def pubkeyTryFrom (bytes32 : List Nat) : Option (List Nat) := some bytes32

/-- The `initialize` instruction handler (named `initState` here because
`initialize` is a Lean keyword): creates the singleton program state with
`total_supply = 0` and `nonce = 0`, recording the caller as authority and
the argument as gateway. -/
def initState (authorityKey gatewayArg : List Nat) (stateBump : Nat) :
    NftProgramState :=
  { authority := authorityKey, gateway := gatewayArg, total_supply := 0,
    nonce := 0, bump := stateBump }

/-- The `mint_nft` instruction handler.  Validates the three metadata length
bounds (`require!`, error `InvalidMetadata`), then mints one token and
publishes metadata (external CPIs), increments `total_supply` with
`checked_add` (error `Overflow` at the `u64` maximum), and fills the fresh
`NftInfo` account.  The source never assigns `cross_chain_recipient`; the
account is freshly `init`-allocated, so the field keeps its zeroed value. -/
def mint_nft (nft_program : NftProgramState)
    (mintKey nameArg symbolArg uriArg recipient : List Nat) (infoBump : Nat) :
    Except NftError (NftProgramState × NftInfo) :=
  if 32 < nameArg.length then .error .InvalidMetadata
  else if 10 < symbolArg.length then .error .InvalidMetadata
  else if 200 < uriArg.length then .error .InvalidMetadata
  else
    match u64CheckedAdd nft_program.total_supply 1 with
    | none => .error .Overflow
    | some ts =>
      .ok ({ nft_program with total_supply := ts },
        { mint := mintKey, owner := recipient, metadata_uri := uriArg,
          name := nameArg, symbol := symbolArg, is_locked := false,
          cross_chain_recipient := List.replicate 32 0, bump := infoBump })

/-- The `transfer_to_zetachain` instruction handler.  Checks, in order:
owner (`Unauthorized`), lock state (`TokenLocked`), nonce (`InvalidNonce`);
then moves the token into program custody (external CPI), marks the record
locked with the supplied `cross_chain_recipient`, advances the stored nonce,
and serializes the outbound `CrossChainMessage` (returned here as the
message bytes the source logs and would hand to the gateway). -/
def transfer_to_zetachain (nft_program : NftProgramState) (nft_info : NftInfo)
    (ownerKey : List Nat) (destination_chain_id : Nat) (recipient : List Nat)
    (nonce : Nat) : Except NftError (NftProgramState × NftInfo × List Nat) :=
  if nft_info.owner ≠ ownerKey then .error .Unauthorized
  else if nft_info.is_locked then .error .TokenLocked
  else if nonce ≤ nft_program.nonce then .error .InvalidNonce
  else
    let message : CrossChainMessage :=
      { message_type := .Transfer, mint := nft_info.mint,
        recipient := recipient, metadata_uri := nft_info.metadata_uri,
        name := nft_info.name, symbol := nft_info.symbol, nonce := nonce }
    .ok ({ nft_program with nonce := nonce },
      { nft_info with is_locked := true, cross_chain_recipient := recipient },
      message.encode)

/-- The `handle_cross_chain_call` instruction handler.  Its account struct
holds only `nft_program` and it performs no caller verification.  The nonce
is checked (`InvalidNonce`) and written before the message bytes are
decoded (`InvalidMessage` on decode failure); a decode failure aborts the
transaction, so the nonce write does not persist in that case, which the
`Except` result models.  Both message branches only log, so on success the
sole state effect is the nonce update. -/
def handle_cross_chain_call (nft_program : NftProgramState)
    (sender : List Nat) (source_chain_id : Nat) (message : List Nat)
    (nonce : Nat) : Except NftError NftProgramState :=
  if nonce ≤ nft_program.nonce then .error .InvalidNonce
  else
    let nft_program1 := { nft_program with nonce := nonce }
    match CrossChainMessage.try_from_slice message with
    | none => .error .InvalidMessage
    | some cross_chain_message =>
      match cross_chain_message.message_type with
      | .Transfer =>
        match pubkeyTryFrom cross_chain_message.recipient with
        | none => .error .InvalidRecipient
        | some _ => .ok nft_program1
      | .Unlock => .ok nft_program1

/-- The `on_call` instruction handler.  First the gateway guard: the
program id of the current top-level instruction, obtained from the
instruction-introspection sysvar (`get_instruction_relative(0, ...)`,
modelled by the `currentIxProgramId` argument), must equal the hard-coded
`gateway::ID` constant, else `Unauthorized`.  Then the payload is decoded
(`InvalidMessage`), the nonce checked against the stored one
(`InvalidNonce`) and advanced, and the message dispatched: `Transfer`
provisions mint/token/metadata (external CPIs), rewrites the `NftInfo`
record from the message with `is_locked = false` and a zeroed
`cross_chain_recipient`, and increments `total_supply` via `checked_add`
(`Overflow` at the maximum); `Unlock` requires the record to be locked
(`TokenNotLocked`), returns the token (external CPI), clears the lock flag
and zeroes `cross_chain_recipient`. -/
def on_call (currentIxProgramId : List Nat) (nft_program : NftProgramState)
    (nft_info : NftInfo) (mintKey : List Nat) (amount : Nat)
    (sender : List Nat) (data : List Nat) (infoBump : Nat) :
    Except NftError (NftProgramState × NftInfo) :=
  if currentIxProgramId ≠ gatewayID then .error .Unauthorized
  else
    match CrossChainMessage.try_from_slice data with
    | none => .error .InvalidMessage
    | some cross_chain_message =>
      if cross_chain_message.nonce ≤ nft_program.nonce then
        .error .InvalidNonce
      else
        let nft_program1 := { nft_program with nonce := cross_chain_message.nonce }
        match cross_chain_message.message_type with
        | .Transfer =>
          match pubkeyTryFrom cross_chain_message.recipient with
          | none => .error .InvalidRecipient
          | some recipientPubkey =>
            let nft_info1 : NftInfo :=
              { mint := mintKey, owner := recipientPubkey,
                metadata_uri := cross_chain_message.metadata_uri,
                name := cross_chain_message.name,
                symbol := cross_chain_message.symbol, is_locked := false,
                cross_chain_recipient := List.replicate 32 0,
                bump := infoBump }
            match u64CheckedAdd nft_program1.total_supply 1 with
            | none => .error .Overflow
            | some ts =>
              .ok ({ nft_program1 with total_supply := ts }, nft_info1)
        | .Unlock =>
          if nft_info.is_locked = false then .error .TokenNotLocked
          else
            .ok (nft_program1,
              { nft_info with
                is_locked := false,
                cross_chain_recipient := List.replicate 32 0 })

/-- The `unlock_nft` instruction handler.  Requires the record to be locked
(`TokenNotLocked`) and the nonce fresh (`InvalidNonce`), returns the token
to the owner (external CPI), clears the lock flag and advances the nonce.
Note the source does not clear `cross_chain_recipient` here, unlike the
`Unlock` branch of `on_call`. -/
def unlock_nft (nft_program : NftProgramState) (nft_info : NftInfo)
    (nonce : Nat) : Except NftError (NftProgramState × NftInfo) :=
  if nft_info.is_locked = false then .error .TokenNotLocked
  else if nonce ≤ nft_program.nonce then .error .InvalidNonce
  else
    .ok ({ nft_program with nonce := nonce },
      { nft_info with is_locked := false })

/-- On-chain state touched by this program: the singleton program state and
the `NftInfo` accounts, keyed by the mint account address (the `nft-info`
PDA is derived from the mint key, so the mint key identifies the record). -/
structure World where
  program : NftProgramState
  records : List (List Nat × NftInfo)
deriving DecidableEq

/-- Lookup of an `NftInfo` account by mint key. -/
def lookupRecord : List (List Nat × NftInfo) → List Nat → Option NftInfo
  | [], _ => none
  | (k1, v1) :: rest, k => if k1 = k then some v1 else lookupRecord rest k

/-- Insert or overwrite the `NftInfo` account for a mint key. -/
def setRecord : List (List Nat × NftInfo) → List Nat → NftInfo →
    List (List Nat × NftInfo)
  | [], k, v => [(k, v)]
  | (k1, v1) :: rest, k, v =>
    if k1 = k then (k, v) :: rest else (k1, v1) :: setRecord rest k v

/-- One invocation of one of the program's instructions, with the accounts
identified by their keys and the instruction arguments. -/
inductive Op where
  | mint (mintKey nameArg symbolArg uriArg recipient : List Nat)
      (infoBump : Nat)
  | transferOut (mintKey ownerKey : List Nat) (destChain : Nat)
      (recipient : List Nat) (nonce : Nat)
  | handleCC (sender : List Nat) (sourceChain : Nat) (message : List Nat)
      (nonce : Nat)
  | onCall (callerProgramId mintKey : List Nat) (amount : Nat)
      (sender : List Nat) (data : List Nat) (infoBump : Nat)
  | unlock (mintKey ownerKey : List Nat) (nonce : Nat)
deriving DecidableEq

/-- A failed invocation: either an Anchor account-validation failure (`init`
on an existing account, a missing account, or a `constraint = ...` clause)
or an error returned by the handler body. -/
inductive StepError where
  | accounts
  | program (e : NftError)
deriving DecidableEq

/-- The `NftInfo` value Anchor hands to `on_call` when `init_if_needed`
freshly creates the account: all-zero account data, i.e. every field at its
Borsh zero value. -/
def freshNftInfo : NftInfo :=
  { mint := List.replicate 32 0, owner := List.replicate 32 0,
    metadata_uri := [], name := [], symbol := [], is_locked := false,
    cross_chain_recipient := List.replicate 32 0, bump := 0 }

/-- One whole-transaction step: Anchor account resolution/constraints, then
the handler; an `Except.error` result means the transaction aborted with no
state persisted.  Account modelling per instruction: `mint_nft` `init`s the
`nft_info` account (fails if it exists); `transfer_to_zetachain` and
`unlock_nft` require an existing record whose owner matches the signer
(`constraint = nft_info.owner == owner.key()`); `handle_cross_chain_call`
takes only `nft_program`; `on_call` takes the record `init_if_needed`
(zero-initialized when absent). -/
def step (w : World) : Op → Except StepError World
  | .mint mintKey nameArg symbolArg uriArg recipient infoBump =>
    match lookupRecord w.records mintKey with
    | some _ => .error .accounts
    | none =>
      match mint_nft w.program mintKey nameArg symbolArg uriArg recipient
          infoBump with
      | .error e => .error (.program e)
      | .ok (p1, info1) =>
        .ok { program := p1, records := setRecord w.records mintKey info1 }
  | .transferOut mintKey ownerKey destChain recipient nonce =>
    match lookupRecord w.records mintKey with
    | none => .error .accounts
    | some info =>
      if info.owner ≠ ownerKey then .error .accounts
      else
        match transfer_to_zetachain w.program info ownerKey destChain
            recipient nonce with
        | .error e => .error (.program e)
        | .ok (p1, info1, _msg) =>
          .ok { program := p1, records := setRecord w.records mintKey info1 }
  | .handleCC sender sourceChain message nonce =>
    match handle_cross_chain_call w.program sender sourceChain message
        nonce with
    | .error e => .error (.program e)
    | .ok p1 => .ok { program := p1, records := w.records }
  | .onCall callerProgramId mintKey amount sender data infoBump =>
    match on_call callerProgramId w.program
        ((lookupRecord w.records mintKey).getD freshNftInfo) mintKey amount
        sender data infoBump with
    | .error e => .error (.program e)
    | .ok (p1, info1) =>
      .ok { program := p1, records := setRecord w.records mintKey info1 }
  | .unlock mintKey ownerKey nonce =>
    match lookupRecord w.records mintKey with
    | none => .error .accounts
    | some info =>
      if info.owner ≠ ownerKey then .error .accounts
      else
        match unlock_nft w.program info nonce with
        | .error e => .error (.program e)
        | .ok (p1, info1) =>
          .ok { program := p1, records := setRecord w.records mintKey info1 }

/-- Run a sequence of operations, all of which must be accepted. -/
def run (w : World) : List Op → Except StepError World
  | [] => .ok w
  | op :: ops =>
    match step w op with
    | .error e => .error e
    | .ok w1 => run w1 ops

/-- The world right after `initialize`: the singleton program state and no
`NftInfo` accounts yet. -/
def initWorld (authorityKey gatewayArg : List Nat) (stateBump : Nat) :
    World :=
  { program := initState authorityKey gatewayArg stateBump, records := [] }

/-- Whether an operation is one of the four nonce-gated instructions
(everything except `mint_nft`, which does not touch the nonce). -/
def isNonceOp : Op → Bool
  | .mint _ _ _ _ _ _ => false
  | _ => true

/-- Whether an operation is a mint: a local `mint_nft`, or an `on_call`
whose payload decodes to a `Transfer` message. -/
def isMintOp : Op → Bool
  | .mint _ _ _ _ _ _ => true
  | .onCall _ _ _ _ data _ =>
    match CrossChainMessage.try_from_slice data with
    | some m =>
      match m.message_type with
      | .Transfer => true
      | .Unlock => false
    | none => false
  | _ => false

/-- The coupling of `is_locked` with `cross_chain_recipient` claimed by the
specification. -/
def coupled (i : NftInfo) : Prop :=
  i.is_locked = true ↔ i.cross_chain_recipient ≠ List.replicate 32 0

/-- Operations under which the lock/recipient coupling is preserved: every
lock supplies a non-zero recipient, and `unlock_nft` (which does not clear
the recipient) is not used. -/
def goodOp : Op → Bool
  | .transferOut _ _ _ r _ => decide (r ≠ List.replicate 32 0)
  | .unlock _ _ _ => false
  | _ => true

/-- Concrete example values used in witnesses and counterexamples. -/
def pkAuth : List Nat := List.replicate 32 9

def pkGw : List Nat := List.replicate 32 7

def pkOwner : List Nat := List.replicate 32 5

def mintKeyEx : List Nat := List.replicate 32 2

def rcptEx : List Nat := List.replicate 32 6

def senderEx : List Nat := List.replicate 20 1

def progEx : NftProgramState := initState pkAuth pkGw 255

def progMaxEx : NftProgramState := { progEx with total_supply := 2 ^ 64 - 1 }

def infoEx : NftInfo :=
  { mint := mintKeyEx, owner := pkOwner, metadata_uri := [104],
    name := [110], symbol := [115], is_locked := false,
    cross_chain_recipient := List.replicate 32 0, bump := 254 }

def infoLockedEx : NftInfo :=
  { infoEx with is_locked := true, cross_chain_recipient := rcptEx }

def unlockMsgEx : CrossChainMessage :=
  { message_type := .Unlock, mint := mintKeyEx, recipient := rcptEx,
    metadata_uri := [104], name := [110], symbol := [115], nonce := 2 }

/-- An over-length message: its `name` is 33 bytes, beyond the 32-byte
bound. -/
def msgOverEx : CrossChainMessage :=
  { message_type := .Transfer, mint := mintKeyEx, recipient := rcptEx,
    metadata_uri := [], name := List.replicate 33 97, symbol := [],
    nonce := 5 }

/-- A message with every string field at its maximum allowed length and the
nonce at the `u64` maximum. -/
def maxMsgEx : CrossChainMessage :=
  { message_type := .Transfer, mint := List.replicate 32 1,
    recipient := List.replicate 32 0,
    metadata_uri := List.replicate 200 117, name := List.replicate 32 110,
    symbol := List.replicate 10 115, nonce := 2 ^ 64 - 1 }

def mintOpEx : Op := .mint mintKeyEx [110] [115] [104] pkOwner 254

/-- The world reached from `initWorld` by the single accepted operation
`mintOpEx`. -/
def wMEx : World :=
  { program := { authority := pkAuth, gateway := pkGw, total_supply := 1,
                 nonce := 0, bump := 255 },
    records := [(mintKeyEx, infoEx)] }

def prog1Ex : NftProgramState := { progEx with nonce := 1 }

def info1Ex : NftInfo :=
  { infoEx with is_locked := true, cross_chain_recipient := rcptEx }

def msg1Ex : List Nat :=
  CrossChainMessage.encode
    { message_type := .Transfer, mint := mintKeyEx, recipient := rcptEx,
      metadata_uri := [104], name := [110], symbol := [115], nonce := 1 }

def prog2Ex : NftProgramState := { prog1Ex with nonce := 2 }

def info2Ex : NftInfo := { info1Ex with is_locked := false }

/-! ## Codec lemmas -/

theorem leBytes_length (k n : Nat) : (leBytes k n).length = k := by
  induction k generalizing n with
  | zero => rfl
  | succ k ih => simp [leBytes, ih]

theorem leBytes_mem_lt (k n : Nat) : ∀ b ∈ leBytes k n, b < 256 := by
  induction k generalizing n with
  | zero => simp [leBytes]
  | succ k ih =>
    intro b hb
    simp only [leBytes, List.mem_cons] at hb
    rcases hb with hb | hb
    · omega
    · exact ih _ b hb

theorem leVal_leBytes (k n : Nat) (h : n < 256 ^ k) :
    leVal (leBytes k n) = n := by
  induction k generalizing n with
  | zero => simp [leBytes, leVal]; omega
  | succ k ih =>
    have hdiv : n / 256 < 256 ^ k := by
      rw [Nat.div_lt_iff_lt_mul (by norm_num : (0:Nat) < 256)]
      calc n < 256 ^ (k + 1) := h
        _ = 256 ^ k * 256 := by rw [pow_succ]
    simp [leBytes, leVal, ih (n / 256) hdiv]
    omega

theorem leVal_lt (bs : List Nat) (h : ∀ b ∈ bs, b < 256) :
    leVal bs < 256 ^ bs.length := by
  induction bs with
  | nil => simp [leVal]
  | cons b rest ih =>
    have hb : b < 256 := h b (by simp)
    have hrest := ih (fun x hx => h x (by simp [hx]))
    simp only [leVal, List.length_cons, pow_succ]
    generalize (256:Nat) ^ rest.length = P at hrest ⊢
    omega

theorem leBytes_leVal (bs : List Nat) (h : ∀ b ∈ bs, b < 256) :
    leBytes bs.length (leVal bs) = bs := by
  induction bs with
  | nil => rfl
  | cons b rest ih =>
    have hb : b < 256 := h b (by simp)
    simp only [List.length_cons, leBytes, leVal]
    have hmod : (b + 256 * leVal rest) % 256 = b := by omega
    have hdiv : (b + 256 * leVal rest) / 256 = leVal rest := by omega
    rw [hmod, hdiv, ih (fun x hx => h x (by simp [hx]))]

theorem readBytes_append (xs : List Nat) (n : Nat) (h : xs.length = n)
    (r : List Nat) : readBytes n (xs ++ r) = some (xs, r) := by
  unfold readBytes
  rw [if_pos (by simp [List.length_append]; omega)]
  rw [List.take_left' h, List.drop_left' h]

theorem readBytes_eq_some (n : Nat) (bs v r : List Nat)
    (h : readBytes n bs = some (v, r)) : bs = v ++ r ∧ v.length = n := by
  unfold readBytes at h
  split at h
  · obtain ⟨hv, hr⟩ := Prod.mk.injEq .. ▸ Option.some.injEq .. ▸ h
    subst hv hr
    refine ⟨(List.take_append_drop n bs).symm, ?_⟩
    simp [List.length_take]
    omega
  · cases h

theorem readUInt_append (k n : Nat) (h : n < 256 ^ k) (r : List Nat) :
    readUInt k (leBytes k n ++ r) = some (n, r) := by
  unfold readUInt
  rw [readBytes_append (leBytes k n) k (leBytes_length k n) r]
  simp [leVal_leBytes k n h]

theorem readUInt_eq_some (k : Nat) (bs : List Nat) (n : Nat) (r : List Nat)
    (hwf : ∀ b ∈ bs, b < 256) (h : readUInt k bs = some (n, r)) :
    bs = leBytes k n ++ r ∧ n < 256 ^ k := by
  unfold readUInt at h
  cases hb : readBytes k bs with
  | none => rw [hb] at h; cases h
  | some p =>
    obtain ⟨v, r0⟩ := p
    rw [hb] at h
    simp only [Option.some.injEq, Prod.mk.injEq] at h
    obtain ⟨hn, hr⟩ := h
    subst hn hr
    obtain ⟨hbs, hlen⟩ := readBytes_eq_some k bs v r0 hb
    subst hbs
    have hv : ∀ b ∈ v, b < 256 := fun b hbv => hwf b (by simp [hbv])
    refine ⟨?_, ?_⟩
    · rw [← hlen, leBytes_leVal v hv]
    · rw [← hlen]; exact leVal_lt v hv

theorem readString_append (s : List Nat) (h : s.length < 2 ^ 32)
    (r : List Nat) : readString (lenPrefixed s ++ r) = some (s, r) := by
  unfold readString lenPrefixed
  rw [List.append_assoc,
    readUInt_append 4 s.length (by norm_num at h ⊢; omega) (s ++ r)]
  exact readBytes_append s s.length rfl r

theorem readString_eq_some (bs s r : List Nat) (hwf : ∀ b ∈ bs, b < 256)
    (h : readString bs = some (s, r)) :
    bs = lenPrefixed s ++ r ∧ s.length < 2 ^ 32 := by
  unfold readString at h
  cases hu : readUInt 4 bs with
  | none => rw [hu] at h; cases h
  | some p =>
    obtain ⟨len, rest⟩ := p
    rw [hu] at h
    obtain ⟨hbs, hlen4⟩ := readUInt_eq_some 4 bs len rest hwf hu
    obtain ⟨hrest, hslen⟩ := readBytes_eq_some len rest s r h
    subst hbs
    subst hrest
    constructor
    · rw [lenPrefixed, hslen, List.append_assoc]
    · rw [hslen]; norm_num at hlen4 ⊢; omega

theorem readMessageType_tag (t : MessageType) (r : List Nat) :
    readMessageType (t.tag :: r) = some (t, r) := by
  cases t <;> rfl

theorem readMessageType_eq_some (bs : List Nat) (t : MessageType)
    (r : List Nat) (h : readMessageType bs = some (t, r)) :
    bs = t.tag :: r := by
  cases bs with
  | nil => cases h
  | cons b rest =>
    simp only [readMessageType] at h
    by_cases h0 : b = 0
    · rw [if_pos h0] at h
      simp only [Option.some.injEq, Prod.mk.injEq] at h
      obtain ⟨ht, hr⟩ := h
      subst h0 hr
      rw [← ht]
      rfl
    · rw [if_neg h0] at h
      by_cases h1 : b = 1
      · rw [if_pos h1] at h
        simp only [Option.some.injEq, Prod.mk.injEq] at h
        obtain ⟨ht, hr⟩ := h
        subst h1 hr
        rw [← ht]
        rfl
      · rw [if_neg h1] at h
        cases h

theorem parseMessage_encode_append (m : CrossChainMessage) (r : List Nat)
    (h : wfMessage m) : parseMessage (m.encode ++ r) = some (m, r) := by
  obtain ⟨h1, h2, h3, h4, h5, h6, _, _, _, _, _⟩ := h
  have h6n : m.nonce < 256 ^ 8 := by norm_num at h6 ⊢; omega
  unfold CrossChainMessage.encode parseMessage
  rw [List.cons_append, readMessageType_tag]
  simp only [List.append_assoc, readBytes_append m.mint 32 h1,
    readBytes_append m.recipient 32 h2, readString_append m.metadata_uri h3,
    readString_append m.name h4, readString_append m.symbol h5,
    readUInt_append 8 m.nonce h6n]

/-- Borsh round-trip at the parser level, with the whole input consumed. -/
theorem try_from_slice_encode (m : CrossChainMessage) (h : wfMessage m) :
    CrossChainMessage.try_from_slice m.encode = some m := by
  unfold CrossChainMessage.try_from_slice
  have hp := parseMessage_encode_append m [] h
  rw [List.append_nil] at hp
  rw [hp]

theorem lenPrefixed_mem_lt (s : List Nat) (hs : ∀ b ∈ s, b < 256) :
    ∀ b ∈ lenPrefixed s, b < 256 := by
  intro b hb
  rw [lenPrefixed, List.mem_append] at hb
  rcases hb with hb | hb
  · exact leBytes_mem_lt 4 _ b hb
  · exact hs b hb

theorem encode_bytes_lt (m : CrossChainMessage) (h : wfMessage m) :
    ∀ b ∈ m.encode, b < 256 := by
  obtain ⟨_, _, _, _, _, _, hm, hr, hu, hn, hs⟩ := h
  intro b hb
  unfold CrossChainMessage.encode at hb
  rw [List.mem_cons] at hb
  rcases hb with hb | hb
  · subst hb; cases m.message_type <;> norm_num [MessageType.tag]
  simp only [List.append_assoc] at hb
  rcases List.mem_append.mp hb with hb | hb
  · exact hm b hb
  rcases List.mem_append.mp hb with hb | hb
  · exact hr b hb
  rcases List.mem_append.mp hb with hb | hb
  · exact lenPrefixed_mem_lt _ hu b hb
  rcases List.mem_append.mp hb with hb | hb
  · exact lenPrefixed_mem_lt _ hn b hb
  rcases List.mem_append.mp hb with hb | hb
  · exact lenPrefixed_mem_lt _ hs b hb
  · exact leBytes_mem_lt 8 _ b hb

theorem parseMessage_eq_some (bs : List Nat) (m : CrossChainMessage)
    (r : List Nat) (hwf : ∀ b ∈ bs, b < 256)
    (h : parseMessage bs = some (m, r)) :
    bs = m.encode ++ r ∧ wfMessage m := by
  unfold parseMessage at h
  cases ht : readMessageType bs with
  | none => rw [ht] at h; simp at h
  | some pt =>
    obtain ⟨t, r1⟩ := pt
    rw [ht] at h
    dsimp only at h
    have hbs1 := readMessageType_eq_some bs t r1 ht
    cases hm : readBytes 32 r1 with
    | none => rw [hm] at h; simp at h
    | some pm =>
      obtain ⟨mintBytes, r2⟩ := pm
      rw [hm] at h
      dsimp only at h
      obtain ⟨hr1, hmlen⟩ := readBytes_eq_some 32 r1 mintBytes r2 hm
      cases hc : readBytes 32 r2 with
      | none => rw [hc] at h; simp at h
      | some pc =>
        obtain ⟨recipientBytes, r3⟩ := pc
        rw [hc] at h
        dsimp only at h
        obtain ⟨hr2, hclen⟩ := readBytes_eq_some 32 r2 recipientBytes r3 hc
        have hwf3 : ∀ b ∈ r3, b < 256 := by
          intro b hb
          exact hwf b (by subst hbs1 hr1 hr2; simp [hb])
        cases hu : readString r3 with
        | none => rw [hu] at h; simp at h
        | some pu =>
          obtain ⟨uriBytes, r4⟩ := pu
          rw [hu] at h
          dsimp only at h
          obtain ⟨hr3, hulen⟩ := readString_eq_some r3 uriBytes r4 hwf3 hu
          have hwf4 : ∀ b ∈ r4, b < 256 := by
            intro b hb
            exact hwf3 b (by subst hr3; simp [hb])
          cases hn : readString r4 with
          | none => rw [hn] at h; simp at h
          | some pn =>
            obtain ⟨nameBytes, r5⟩ := pn
            rw [hn] at h
            dsimp only at h
            obtain ⟨hr4, hnlen⟩ := readString_eq_some r4 nameBytes r5 hwf4 hn
            have hwf5 : ∀ b ∈ r5, b < 256 := by
              intro b hb
              exact hwf4 b (by subst hr4; simp [hb])
            cases hs : readString r5 with
            | none => rw [hs] at h; simp at h
            | some ps =>
              obtain ⟨symbolBytes, r6⟩ := ps
              rw [hs] at h
              dsimp only at h
              obtain ⟨hr5, hslen⟩ :=
                readString_eq_some r5 symbolBytes r6 hwf5 hs
              have hwf6 : ∀ b ∈ r6, b < 256 := by
                intro b hb
                exact hwf5 b (by subst hr5; simp [hb])
              cases hz : readUInt 8 r6 with
              | none => rw [hz] at h; simp at h
              | some pz =>
                obtain ⟨nonceVal, r7⟩ := pz
                rw [hz] at h
                dsimp only at h
                obtain ⟨hr6, hzlt⟩ := readUInt_eq_some 8 r6 nonceVal r7 hwf6 hz
                simp only [Option.some.injEq, Prod.mk.injEq] at h
                obtain ⟨hm0, hr0⟩ := h
                subst hm0 hr0
                have hwfm : wfMessage
                    ({ message_type := t, mint := mintBytes,
                       recipient := recipientBytes, metadata_uri := uriBytes,
                       name := nameBytes, symbol := symbolBytes,
                       nonce := nonceVal } : CrossChainMessage) := by
                  refine ⟨hmlen, hclen, hulen, hnlen, hslen, ?_, ?_, ?_, ?_, ?_, ?_⟩
                  · norm_num at hzlt ⊢; omega
                  · intro b hb
                    refine hwf b ?_
                    subst hbs1 hr1
                    simp [hb]
                  · intro b hb
                    refine hwf b ?_
                    subst hbs1 hr1 hr2
                    simp [hb]
                  · intro b hb
                    refine hwf3 b ?_
                    subst hr3
                    simp [lenPrefixed, hb]
                  · intro b hb
                    refine hwf4 b ?_
                    subst hr4
                    simp [lenPrefixed, hb]
                  · intro b hb
                    refine hwf5 b ?_
                    subst hr5
                    simp [lenPrefixed, hb]
                refine ⟨?_, hwfm⟩
                subst hbs1 hr1 hr2 hr3 hr4 hr5 hr6
                simp [CrossChainMessage.encode, List.append_assoc,
                  List.cons_append]

theorem try_from_slice_eq_some (bs : List Nat) (m : CrossChainMessage)
    (hwf : ∀ b ∈ bs, b < 256)
    (h : CrossChainMessage.try_from_slice bs = some m) :
    bs = m.encode ∧ wfMessage m := by
  unfold CrossChainMessage.try_from_slice at h
  cases hp : parseMessage bs with
  | none => rw [hp] at h; cases h
  | some p =>
    obtain ⟨m0, r0⟩ := p
    rw [hp] at h
    cases r0 with
    | nil =>
      simp only [Option.some.injEq] at h
      obtain ⟨hbs, hwfm⟩ := parseMessage_eq_some bs m0 [] hwf hp
      rw [List.append_nil] at hbs
      rw [← h]
      exact ⟨hbs, hwfm⟩
    | cons x xs => cases h

/-- A strict prefix of a valid encoding never decodes: truncated payloads
are rejected. -/
theorem try_from_slice_take_none (m : CrossChainMessage) (k : Nat)
    (h : wfMessage m) (hk : k < m.encode.length) :
    CrossChainMessage.try_from_slice (m.encode.take k) = none := by
  cases hts : CrossChainMessage.try_from_slice (m.encode.take k) with
  | none => rfl
  | some m1 =>
    exfalso
    have hwfb : ∀ b ∈ m.encode.take k, b < 256 :=
      fun b hb => encode_bytes_lt m h b (List.mem_of_mem_take hb)
    obtain ⟨hbs, hwf1⟩ := try_from_slice_eq_some _ m1 hwfb hts
    have hsplit : m1.encode ++ m.encode.drop k = m.encode := by
      rw [← hbs]
      exact List.take_append_drop k m.encode
    have hp1 : parseMessage (m1.encode ++ m.encode.drop k) =
        some (m1, m.encode.drop k) :=
      parseMessage_encode_append m1 _ hwf1
    rw [hsplit] at hp1
    have hp2 : parseMessage m.encode = some (m, []) := by
      have hp := parseMessage_encode_append m [] h
      rwa [List.append_nil] at hp
    rw [hp1] at hp2
    simp only [Option.some.injEq, Prod.mk.injEq] at hp2
    have hdrop : m.encode.drop k = [] := hp2.2
    rw [List.drop_eq_nil_iff] at hdrop
    omega

/-! ## State-machine helper lemmas -/

theorem lookupRecord_setRecord (rs : List (List Nat × NftInfo)) (k : List Nat)
    (v : NftInfo) (k2 : List Nat) :
    lookupRecord (setRecord rs k v) k2 =
      if k = k2 then some v else lookupRecord rs k2 := by
  induction rs with
  | nil =>
    by_cases h2 : k = k2 <;> simp [setRecord, lookupRecord, h2]
  | cons p rest ih =>
    obtain ⟨k1, v1⟩ := p
    by_cases h1 : k1 = k
    · subst h1
      by_cases h2 : k1 = k2 <;> simp [setRecord, lookupRecord, h2]
    · by_cases h2 : k1 = k2
      · subst h2
        have hk : k ≠ k1 := fun hh => h1 hh.symm
        simp [setRecord, h1, lookupRecord, hk]
      · simp [setRecord, h1, lookupRecord, h2, ih]

/-- Success characterization of `mint_nft`. -/
theorem mint_nft_ok_iff (p : NftProgramState) (k nm sy u r : List Nat)
    (b : Nat) (q : NftProgramState × NftInfo) :
    mint_nft p k nm sy u r b = .ok q ↔
      nm.length ≤ 32 ∧ sy.length ≤ 10 ∧ u.length ≤ 200 ∧
        p.total_supply + 1 < 2 ^ 64 ∧
        q = ({ p with total_supply := p.total_supply + 1 },
          { mint := k, owner := r, metadata_uri := u, name := nm,
            symbol := sy, is_locked := false,
            cross_chain_recipient := List.replicate 32 0, bump := b }) := by
  unfold mint_nft u64CheckedAdd
  split_ifs with h1 h2 h3 h4
  · constructor
    · intro h; cases h
    · rintro ⟨ha, -⟩; omega
  · constructor
    · intro h; cases h
    · rintro ⟨-, ha, -⟩; omega
  · constructor
    · intro h; cases h
    · rintro ⟨-, -, ha, -⟩; omega
  · constructor
    · intro h
      simp only [Except.ok.injEq] at h
      subst h
      exact ⟨by omega, by omega, by omega, h4, rfl⟩
    · rintro ⟨-, -, -, -, rfl⟩; rfl
  · constructor
    · intro h; cases h
    · rintro ⟨-, -, -, ha, -⟩; omega

/-- Success characterization of `transfer_to_zetachain`. -/
theorem transfer_ok_iff (p : NftProgramState) (i : NftInfo)
    (o : List Nat) (d : Nat) (r : List Nat) (n : Nat)
    (q : NftProgramState × NftInfo × List Nat) :
    transfer_to_zetachain p i o d r n = .ok q ↔
      i.owner = o ∧ i.is_locked = false ∧ p.nonce < n ∧
        q = ({ p with nonce := n },
          { i with is_locked := true, cross_chain_recipient := r },
          CrossChainMessage.encode
            { message_type := .Transfer, mint := i.mint, recipient := r,
              metadata_uri := i.metadata_uri, name := i.name,
              symbol := i.symbol, nonce := n }) := by
  unfold transfer_to_zetachain
  split_ifs with h1 h2 h3
  · constructor
    · intro h; cases h
    · rintro ⟨ha, -⟩; exact h1 ha
  · constructor
    · intro h; cases h
    · rintro ⟨-, ha, -⟩; rw [h2] at ha; cases ha
  · constructor
    · intro h; cases h
    · rintro ⟨-, -, ha, -⟩; omega
  · constructor
    · intro h
      simp only [Except.ok.injEq] at h
      subst h
      refine ⟨by tauto, by simpa using h2, by omega, rfl⟩
    · rintro ⟨-, -, -, rfl⟩; rfl

/-- Success characterization of `handle_cross_chain_call`: any caller, any
sender, any source chain; a fresh nonce and a decodable payload are the
only requirements, and the nonce update is the only effect. -/
theorem handleCC_ok_iff (p : NftProgramState) (s : List Nat) (c : Nat)
    (msg : List Nat) (n : Nat) (p' : NftProgramState) :
    handle_cross_chain_call p s c msg n = .ok p' ↔
      p.nonce < n ∧ (∃ m, CrossChainMessage.try_from_slice msg = some m) ∧
        p' = { p with nonce := n } := by
  unfold handle_cross_chain_call
  split_ifs with h1
  · constructor
    · intro h; cases h
    · rintro ⟨ha, -⟩; omega
  · cases hd : CrossChainMessage.try_from_slice msg with
    | none =>
      constructor
      · intro h; cases h
      · rintro ⟨-, ⟨m, hm⟩, -⟩; cases hm
    | some m =>
      dsimp only
      cases hmt : m.message_type with
      | Transfer =>
        dsimp only [pubkeyTryFrom]
        constructor
        · intro h
          simp only [Except.ok.injEq] at h
          subst h
          refine ⟨by omega, ⟨m, rfl⟩, rfl⟩
        · rintro ⟨-, -, rfl⟩; rfl
      | Unlock =>
        dsimp only
        constructor
        · intro h
          simp only [Except.ok.injEq] at h
          subst h
          refine ⟨by omega, ⟨m, rfl⟩, rfl⟩
        · rintro ⟨-, -, rfl⟩; rfl

/-- Success characterization of `on_call`. -/
theorem on_call_ok_iff (caller : List Nat) (p : NftProgramState)
    (i : NftInfo) (k : List Nat) (a : Nat) (s d : List Nat) (b : Nat)
    (q : NftProgramState × NftInfo) :
    on_call caller p i k a s d b = .ok q ↔
      caller = gatewayID ∧
        ∃ m, CrossChainMessage.try_from_slice d = some m ∧
          p.nonce < m.nonce ∧
          ((m.message_type = .Transfer ∧ p.total_supply + 1 < 2 ^ 64 ∧
              q = ({ p with
                      nonce := m.nonce,
                      total_supply := p.total_supply + 1 },
                { mint := k, owner := m.recipient,
                  metadata_uri := m.metadata_uri, name := m.name,
                  symbol := m.symbol, is_locked := false,
                  cross_chain_recipient := List.replicate 32 0,
                  bump := b })) ∨
            (m.message_type = .Unlock ∧ i.is_locked = true ∧
              q = ({ p with nonce := m.nonce },
                { i with
                  is_locked := false,
                  cross_chain_recipient := List.replicate 32 0 }))) := by
  unfold on_call
  by_cases h1 : caller ≠ gatewayID
  · rw [if_pos h1]
    constructor
    · intro h; cases h
    · rintro ⟨ha, -⟩; exact absurd ha h1
  · rw [if_neg h1]
    cases hd : CrossChainMessage.try_from_slice d with
    | none =>
      constructor
      · intro h; cases h
      · rintro ⟨-, m, hm, -⟩; cases hm
    | some m =>
      dsimp only
      by_cases h2 : m.nonce ≤ p.nonce
      · rw [if_pos h2]
        constructor
        · intro h; cases h
        · rintro ⟨-, m', hm', hlt, -⟩
          simp only [Option.some.injEq] at hm'
          subst hm'
          omega
      · rw [if_neg h2]
        cases hmt : m.message_type with
        | Transfer =>
          dsimp only [pubkeyTryFrom]
          unfold u64CheckedAdd
          by_cases h3 : p.total_supply + 1 < 2 ^ 64
          · rw [if_pos h3]
            dsimp only
            constructor
            · intro h
              simp only [Except.ok.injEq] at h
              subst h
              exact ⟨not_not.mp h1, m, rfl, by omega,
                Or.inl ⟨hmt, h3, rfl⟩⟩
            · rintro ⟨-, m', hm', -, hbr⟩
              simp only [Option.some.injEq] at hm'
              subst hm'
              rcases hbr with ⟨-, -, rfl⟩ | ⟨hu, -⟩
              · rfl
              · rw [hmt] at hu; cases hu
          · rw [if_neg h3]
            constructor
            · intro h; cases h
            · rintro ⟨-, m', hm', -, hbr⟩
              simp only [Option.some.injEq] at hm'
              subst hm'
              rcases hbr with ⟨-, hs3, -⟩ | ⟨hu, -⟩
              · exact absurd hs3 h3
              · rw [hmt] at hu; cases hu
        | Unlock =>
          dsimp only
          by_cases h4 : i.is_locked = false
          · rw [if_pos h4]
            constructor
            · intro h; cases h
            · rintro ⟨-, m', hm', -, hbr⟩
              simp only [Option.some.injEq] at hm'
              subst hm'
              rcases hbr with ⟨ht, -⟩ | ⟨-, hl, -⟩
              · rw [hmt] at ht; cases ht
              · rw [h4] at hl; cases hl
          · rw [if_neg h4]
            constructor
            · intro h
              simp only [Except.ok.injEq] at h
              subst h
              exact ⟨not_not.mp h1, m, rfl, by omega,
                Or.inr ⟨hmt, by simpa using h4, rfl⟩⟩
            · rintro ⟨-, m', hm', -, hbr⟩
              simp only [Option.some.injEq] at hm'
              subst hm'
              rcases hbr with ⟨ht, -⟩ | ⟨-, -, rfl⟩
              · rw [hmt] at ht; cases ht
              · rfl

/-- Success characterization of `unlock_nft`.  Note the resulting record
keeps its `cross_chain_recipient` value: the handler does not clear it. -/
theorem unlock_nft_ok_iff (p : NftProgramState) (i : NftInfo) (n : Nat)
    (q : NftProgramState × NftInfo) :
    unlock_nft p i n = .ok q ↔
      i.is_locked = true ∧ p.nonce < n ∧
        q = ({ p with nonce := n }, { i with is_locked := false }) := by
  unfold unlock_nft
  split_ifs with h1 h2
  · constructor
    · intro h; cases h
    · rintro ⟨ha, -⟩; rw [h1] at ha; cases ha
  · constructor
    · intro h; cases h
    · rintro ⟨-, ha, -⟩; omega
  · constructor
    · intro h
      simp only [Except.ok.injEq] at h
      subst h
      exact ⟨by simpa using h1, by omega, rfl⟩
    · rintro ⟨-, -, rfl⟩; rfl

/-- Inversion of an accepted `mint_nft` transaction. -/
theorem step_mint_ok {w : World} {k nm sy u r : List Nat} {b : Nat}
    {w' : World} (h : step w (.mint k nm sy u r b) = .ok w') :
    lookupRecord w.records k = none ∧ nm.length ≤ 32 ∧ sy.length ≤ 10 ∧
      u.length ≤ 200 ∧ w.program.total_supply + 1 < 2 ^ 64 ∧
      w' = { program := { w.program with
                          total_supply := w.program.total_supply + 1 },
             records := setRecord w.records k
               { mint := k, owner := r, metadata_uri := u, name := nm,
                 symbol := sy, is_locked := false,
                 cross_chain_recipient := List.replicate 32 0,
                 bump := b } } := by
  simp only [step] at h
  cases hl : lookupRecord w.records k with
  | some _ => rw [hl] at h; simp at h
  | none =>
    rw [hl] at h
    dsimp only at h
    cases hm : mint_nft w.program k nm sy u r b with
    | error e => rw [hm] at h; simp at h
    | ok q =>
      obtain ⟨p1, i1⟩ := q
      rw [hm] at h
      dsimp only at h
      simp only [Except.ok.injEq] at h
      subst h
      obtain ⟨h1, h2, h3, h4, h5⟩ := (mint_nft_ok_iff ..).mp hm
      simp only [Prod.mk.injEq] at h5
      obtain ⟨hp, hi⟩ := h5
      subst hp hi
      exact ⟨rfl, h1, h2, h3, h4, rfl⟩

/-- Inversion of an accepted `transfer_to_zetachain` transaction. -/
theorem step_transferOut_ok {w : World} {k o : List Nat} {dc : Nat}
    {r : List Nat} {n : Nat} {w' : World}
    (h : step w (.transferOut k o dc r n) = .ok w') :
    ∃ info, lookupRecord w.records k = some info ∧ info.owner = o ∧
      info.is_locked = false ∧ w.program.nonce < n ∧
      w' = { program := { w.program with nonce := n },
             records := setRecord w.records k
               { info with
                 is_locked := true, cross_chain_recipient := r } } := by
  simp only [step] at h
  cases hl : lookupRecord w.records k with
  | none => rw [hl] at h; simp at h
  | some info =>
    rw [hl] at h
    dsimp only at h
    by_cases ho : info.owner ≠ o
    · rw [if_pos ho] at h; cases h
    · rw [if_neg ho] at h
      cases ht : transfer_to_zetachain w.program info o dc r n with
      | error e => rw [ht] at h; simp at h
      | ok q =>
        obtain ⟨p1, i1, msg⟩ := q
        rw [ht] at h
        dsimp only at h
        simp only [Except.ok.injEq] at h
        subst h
        obtain ⟨h1, h2, h3, h4⟩ := (transfer_ok_iff ..).mp ht
        simp only [Prod.mk.injEq] at h4
        obtain ⟨hp, hi, -⟩ := h4
        subst hp hi
        exact ⟨info, rfl, h1, h2, h3, rfl⟩

/-- Inversion of an accepted `handle_cross_chain_call` transaction: the
nonce advances and nothing else changes. -/
theorem step_handleCC_ok {w : World} {s : List Nat} {c : Nat}
    {msg : List Nat} {n : Nat} {w' : World}
    (h : step w (.handleCC s c msg n) = .ok w') :
    w.program.nonce < n ∧
      (∃ m, CrossChainMessage.try_from_slice msg = some m) ∧
      w' = { program := { w.program with nonce := n },
             records := w.records } := by
  simp only [step] at h
  cases hc : handle_cross_chain_call w.program s c msg n with
  | error e => rw [hc] at h; simp at h
  | ok p1 =>
    rw [hc] at h
    dsimp only at h
    simp only [Except.ok.injEq] at h
    subst h
    obtain ⟨h1, h2, h3⟩ := (handleCC_ok_iff ..).mp hc
    subst h3
    exact ⟨h1, h2, rfl⟩

/-- Inversion of an accepted `on_call` transaction. -/
theorem step_onCall_ok {w : World} {caller k : List Nat} {a : Nat}
    {s data : List Nat} {b : Nat} {w' : World}
    (h : step w (.onCall caller k a s data b) = .ok w') :
    caller = gatewayID ∧
      ∃ m, CrossChainMessage.try_from_slice data = some m ∧
        w.program.nonce < m.nonce ∧
        ((m.message_type = .Transfer ∧
            w.program.total_supply + 1 < 2 ^ 64 ∧
            w' = { program := { w.program with
                                nonce := m.nonce,
                                total_supply := w.program.total_supply + 1 },
                   records := setRecord w.records k
                     { mint := k, owner := m.recipient,
                       metadata_uri := m.metadata_uri, name := m.name,
                       symbol := m.symbol, is_locked := false,
                       cross_chain_recipient := List.replicate 32 0,
                       bump := b } }) ∨
          (m.message_type = .Unlock ∧
            ((lookupRecord w.records k).getD freshNftInfo).is_locked = true ∧
            w' = { program := { w.program with nonce := m.nonce },
                   records := setRecord w.records k
                     { (lookupRecord w.records k).getD freshNftInfo with
                       is_locked := false,
                       cross_chain_recipient := List.replicate 32 0 } })) := by
  simp only [step] at h
  cases hc : on_call caller w.program
      ((lookupRecord w.records k).getD freshNftInfo) k a s data b with
  | error e => rw [hc] at h; simp at h
  | ok q =>
    obtain ⟨p1, i1⟩ := q
    rw [hc] at h
    dsimp only at h
    simp only [Except.ok.injEq] at h
    subst h
    obtain ⟨h1, m, hm, hlt, hbr⟩ := (on_call_ok_iff ..).mp hc
    refine ⟨h1, m, hm, hlt, ?_⟩
    rcases hbr with ⟨hmt, hov, hq⟩ | ⟨hmt, hl, hq⟩
    · simp only [Prod.mk.injEq] at hq
      obtain ⟨hp, hi⟩ := hq
      subst hp hi
      exact Or.inl ⟨hmt, hov, rfl⟩
    · simp only [Prod.mk.injEq] at hq
      obtain ⟨hp, hi⟩ := hq
      subst hp hi
      exact Or.inr ⟨hmt, hl, rfl⟩

/-- Inversion of an accepted `unlock_nft` transaction. -/
theorem step_unlock_ok {w : World} {k o : List Nat} {n : Nat} {w' : World}
    (h : step w (.unlock k o n) = .ok w') :
    ∃ info, lookupRecord w.records k = some info ∧ info.owner = o ∧
      info.is_locked = true ∧ w.program.nonce < n ∧
      w' = { program := { w.program with nonce := n },
             records := setRecord w.records k
               { info with is_locked := false } } := by
  simp only [step] at h
  cases hl : lookupRecord w.records k with
  | none => rw [hl] at h; simp at h
  | some info =>
    rw [hl] at h
    dsimp only at h
    by_cases ho : info.owner ≠ o
    · rw [if_pos ho] at h; cases h
    · rw [if_neg ho] at h
      cases ht : unlock_nft w.program info n with
      | error e => rw [ht] at h; simp at h
      | ok q =>
        obtain ⟨p1, i1⟩ := q
        rw [ht] at h
        dsimp only at h
        simp only [Except.ok.injEq] at h
        subst h
        obtain ⟨h1, h2, h3⟩ := (unlock_nft_ok_iff ..).mp ht
        simp only [Prod.mk.injEq] at h3
        obtain ⟨hp, hi⟩ := h3
        subst hp hi
        exact ⟨info, rfl, not_not.mp ho, h1, h2, rfl⟩

/-- Per-step supply accounting: an accepted operation adds exactly 1 to
`total_supply` when it is a mint (local `mint_nft` or inbound `Transfer`)
and leaves it unchanged otherwise. -/
theorem step_total_supply {w : World} {op : Op} {w' : World}
    (h : step w op = .ok w') :
    w'.program.total_supply =
      w.program.total_supply + (if isMintOp op then 1 else 0) := by
  cases op with
  | mint k nm sy u r b =>
    obtain ⟨-, -, -, -, -, rfl⟩ := step_mint_ok h
    simp [isMintOp]
  | transferOut k o dc r n =>
    obtain ⟨info, -, -, -, -, rfl⟩ := step_transferOut_ok h
    simp [isMintOp]
  | handleCC s c msg n =>
    obtain ⟨-, -, rfl⟩ := step_handleCC_ok h
    simp [isMintOp]
  | onCall caller k a s data b =>
    obtain ⟨-, m, hm, -, hbr⟩ := step_onCall_ok h
    rcases hbr with ⟨hmt, -, rfl⟩ | ⟨hmt, -, rfl⟩ <;>
      simp [isMintOp, hm, hmt]
  | unlock k o n =>
    obtain ⟨info, -, -, -, -, rfl⟩ := step_unlock_ok h
    simp [isMintOp]

/-- Supply accounting over a whole accepted sequence. -/
theorem run_total_supply {w : World} {ops : List Op} {w' : World}
    (h : run w ops = .ok w') :
    w'.program.total_supply =
      w.program.total_supply + ops.countP (fun op => isMintOp op) := by
  induction ops generalizing w with
  | nil =>
    simp only [run, Except.ok.injEq] at h
    subst h
    simp
  | cons op ops ih =>
    simp only [run] at h
    cases hs : step w op with
    | error e => rw [hs] at h; simp at h
    | ok w1 =>
      rw [hs] at h
      dsimp only at h
      have h1 := step_total_supply hs
      have h2 := ih h
      rw [h2, h1, List.countP_cons]
      by_cases hm : isMintOp op <;> simp [hm] <;> omega

/-- Per-step nonce behaviour: the stored nonce never decreases, and every
accepted nonce-gated operation strictly increases it. -/
theorem step_nonce_mono {w : World} {op : Op} {w' : World}
    (h : step w op = .ok w') :
    w.program.nonce ≤ w'.program.nonce ∧
      (isNonceOp op = true → w.program.nonce < w'.program.nonce) := by
  cases op with
  | mint k nm sy u r b =>
    obtain ⟨-, -, -, -, -, rfl⟩ := step_mint_ok h
    simp [isNonceOp]
  | transferOut k o dc r n =>
    obtain ⟨info, -, -, -, hn, rfl⟩ := step_transferOut_ok h
    exact ⟨by simp; omega, fun _ => by simp; omega⟩
  | handleCC s c msg n =>
    obtain ⟨hn, -, rfl⟩ := step_handleCC_ok h
    exact ⟨by simp; omega, fun _ => by simp; omega⟩
  | onCall caller k a s data b =>
    obtain ⟨-, m, hm, hn, hbr⟩ := step_onCall_ok h
    rcases hbr with ⟨-, -, rfl⟩ | ⟨-, -, rfl⟩ <;>
      exact ⟨by simp; omega, fun _ => by simp; omega⟩
  | unlock k o n =>
    obtain ⟨info, -, -, -, hn, rfl⟩ := step_unlock_ok h
    exact ⟨by simp; omega, fun _ => by simp; omega⟩

/-- One accepted good operation preserves the coupling invariant on every
stored record. -/
theorem step_coupled {w : World} {op : Op} {w' : World}
    (hg : goodOp op = true)
    (hw : ∀ k i, lookupRecord w.records k = some i → coupled i)
    (h : step w op = .ok w') :
    ∀ k i, lookupRecord w'.records k = some i → coupled i := by
  cases op with
  | mint k0 nm sy u r b =>
    obtain ⟨-, -, -, -, -, rfl⟩ := step_mint_ok h
    intro k i hi
    dsimp only at hi
    rw [lookupRecord_setRecord] at hi
    by_cases hk : k0 = k
    · rw [if_pos hk] at hi
      simp only [Option.some.injEq] at hi
      subst hi
      simp [coupled]
    · rw [if_neg hk] at hi
      exact hw k i hi
  | transferOut k0 o dc r n =>
    obtain ⟨info, -, -, -, -, rfl⟩ := step_transferOut_ok h
    simp only [goodOp, decide_eq_true_eq] at hg
    intro k i hi
    dsimp only at hi
    rw [lookupRecord_setRecord] at hi
    by_cases hk : k0 = k
    · rw [if_pos hk] at hi
      simp only [Option.some.injEq] at hi
      subst hi
      unfold coupled
      exact ⟨fun _ => hg, fun _ => rfl⟩
    · rw [if_neg hk] at hi
      exact hw k i hi
  | handleCC s c msg n =>
    obtain ⟨-, -, rfl⟩ := step_handleCC_ok h
    intro k i hi
    exact hw k i hi
  | onCall caller k0 a s data b =>
    obtain ⟨-, m, hm, -, hbr⟩ := step_onCall_ok h
    rcases hbr with ⟨-, -, rfl⟩ | ⟨-, -, rfl⟩ <;>
    · intro k i hi
      dsimp only at hi
      rw [lookupRecord_setRecord] at hi
      by_cases hk : k0 = k
      · rw [if_pos hk] at hi
        simp only [Option.some.injEq] at hi
        subst hi
        simp [coupled]
      · rw [if_neg hk] at hi
        exact hw k i hi
  | unlock k0 o n =>
    simp [goodOp] at hg

/-- The coupling invariant propagated through a whole accepted sequence of
good operations. -/
theorem run_coupled {w : World} {ops : List Op} {w' : World}
    (h : run w ops = .ok w') (hg : ∀ op ∈ ops, goodOp op = true)
    (hw : ∀ k i, lookupRecord w.records k = some i → coupled i) :
    ∀ k i, lookupRecord w'.records k = some i → coupled i := by
  induction ops generalizing w with
  | nil =>
    simp only [run, Except.ok.injEq] at h
    subst h
    exact hw
  | cons op ops ih =>
    simp only [run] at h
    cases hs : step w op with
    | error e => rw [hs] at h; simp at h
    | ok w1 =>
      rw [hs] at h
      dsimp only at h
      exact ih h (fun o ho => hg o (by simp [ho]))
        (step_coupled (hg op (by simp)) hw hs)

/-! ## Claims -/

/-- C7: for every `CrossChainMessage` whose fields satisfy the bounds the
Rust types and the spec impose (32-byte mint/recipient, strings of at most
200/32/10 bytes — including the empty and maximum-length boundary cases —
and a `u64` nonce), decoding the encoding reproduces the message exactly. -/
theorem c7_message_roundtrip :
    ∀ m : CrossChainMessage, m.mint.length = 32 → m.recipient.length = 32 →
      m.metadata_uri.length ≤ 200 → m.name.length ≤ 32 →
      m.symbol.length ≤ 10 → m.nonce < 2 ^ 64 →
      (∀ b ∈ m.mint, b < 256) → (∀ b ∈ m.recipient, b < 256) →
      (∀ b ∈ m.metadata_uri, b < 256) → (∀ b ∈ m.name, b < 256) →
      (∀ b ∈ m.symbol, b < 256) →
      CrossChainMessage.try_from_slice m.encode = some m := by
  intro m h1 h2 h3 h4 h5 h6 h7 h8 h9 h10 h11
  have hp : (2:Nat) ^ 32 = 4294967296 := by norm_num
  refine try_from_slice_encode m
    ⟨h1, h2, ?_, ?_, ?_, h6, h7, h8, h9, h10, h11⟩ <;> omega

theorem c7_message_roundtrip_witness :
    CrossChainMessage.try_from_slice maxMsgEx.encode = some maxMsgEx :=
  c7_message_roundtrip maxMsgEx (by decide) (by decide) (by decide)
    (by decide) (by decide) (by decide) (by decide) (by decide) (by decide)
    (by decide) (by decide)

/-- C6 counterexample: a payload whose `name` field is 33 bytes long — over
the 32-byte bound — decodes successfully instead of being rejected with
`InvalidMessage`, because Borsh deserialization enforces no `max_len`
bounds. -/
theorem c6_counterexample :
    32 < msgOverEx.name.length ∧
      CrossChainMessage.try_from_slice msgOverEx.encode = some msgOverEx :=
  ⟨by decide, by decide⟩

/-- C6 (amended): the encoding is laid out as tag byte, 32-byte mint,
32-byte recipient, `u32`-little-endian-length-prefixed metadataURI, name
and symbol, then the 8-byte little-endian nonce (the definition of
`CrossChainMessage.encode`); decoding is canonical — any byte string that
decodes is exactly the encoding of the result, so trailing garbage and
every truncation of a valid encoding are rejected — but over-length string
fields are NOT rejected: the 200/32/10 bounds are not enforced by the
codec. -/
theorem c6_wire_format_canonical :
    (∀ (bs : List Nat) (m : CrossChainMessage), (∀ b ∈ bs, b < 256) →
        CrossChainMessage.try_from_slice bs = some m → bs = m.encode) ∧
      (∀ (m : CrossChainMessage) (k : Nat), wfMessage m →
        k < m.encode.length →
        CrossChainMessage.try_from_slice (m.encode.take k) = none) :=
  ⟨fun bs m hwf h => (try_from_slice_eq_some bs m hwf h).1,
    fun m k h hk => try_from_slice_take_none m k h hk⟩

theorem c6_wire_format_canonical_witness :
    CrossChainMessage.try_from_slice (unlockMsgEx.encode.take 5) = none :=
  c6_wire_format_canonical.2 unlockMsgEx 5 (by decide) (by decide)

/-- C4: `transfer_to_zetachain` checks its three preconditions in order
with the first failure winning — non-owner caller → `Unauthorized`; owner
but locked → `TokenLocked`; owner, unlocked, but stale nonce →
`InvalidNonce` — and it succeeds only when all three hold. -/
theorem c4_transfer_precondition_order :
    (∀ (p : NftProgramState) (i : NftInfo) (o : List Nat) (d : Nat)
        (r : List Nat) (n : Nat), i.owner ≠ o →
        transfer_to_zetachain p i o d r n = .error .Unauthorized) ∧
      (∀ (p : NftProgramState) (i : NftInfo) (o : List Nat) (d : Nat)
        (r : List Nat) (n : Nat), i.owner = o → i.is_locked = true →
        transfer_to_zetachain p i o d r n = .error .TokenLocked) ∧
      (∀ (p : NftProgramState) (i : NftInfo) (o : List Nat) (d : Nat)
        (r : List Nat) (n : Nat), i.owner = o → i.is_locked = false →
        n ≤ p.nonce →
        transfer_to_zetachain p i o d r n = .error .InvalidNonce) ∧
      (∀ (p : NftProgramState) (i : NftInfo) (o : List Nat) (d : Nat)
        (r : List Nat) (n : Nat) q,
        transfer_to_zetachain p i o d r n = .ok q →
        i.owner = o ∧ i.is_locked = false ∧ p.nonce < n) := by
  refine ⟨?_, ?_, ?_, ?_⟩
  · intro p i o d r n ho
    unfold transfer_to_zetachain
    rw [if_pos ho]
  · intro p i o d r n ho hl
    unfold transfer_to_zetachain
    rw [if_neg (fun hh => hh ho), if_pos hl]
  · intro p i o d r n ho hl hn
    unfold transfer_to_zetachain
    rw [if_neg (fun hh => hh ho), if_neg (by simp [hl]), if_pos hn]
  · intro p i o d r n q h
    obtain ⟨h1, h2, h3, -⟩ := (transfer_ok_iff ..).mp h
    exact ⟨h1, h2, h3⟩

theorem c4_transfer_precondition_order_witness :
    transfer_to_zetachain progEx infoEx pkAuth 7 rcptEx 1 =
      .error .Unauthorized :=
  c4_transfer_precondition_order.1 progEx infoEx pkAuth 7 rcptEx 1
    (by decide)

/-- The `InvalidMetadata` failure of `mint_nft` happens exactly on a
violated length bound. -/
theorem mint_nft_invalid_metadata_iff (p : NftProgramState)
    (k nm sy u r : List Nat) (b : Nat) :
    mint_nft p k nm sy u r b = .error .InvalidMetadata ↔
      (32 < nm.length ∨ 10 < sy.length ∨ 200 < u.length) := by
  unfold mint_nft
  split_ifs with h1 h2 h3
  · simp
    omega
  · simp
    omega
  · simp
    omega
  · cases ha : u64CheckedAdd p.total_supply 1 with
    | none =>
      simp
      omega
    | some ts =>
      simp
      omega

/-- C10: `mint_nft` fails with `InvalidMetadata` exactly when `name`
exceeds 32 bytes, `symbol` exceeds 10 bytes, or `uri` exceeds 200 bytes;
the bounds are validated before any mutation, so on such a failure the
whole transaction is an error and no state change (supply, record, token,
metadata) is produced. -/
theorem c10_mint_metadata_validation :
    (∀ (p : NftProgramState) (k nm sy u r : List Nat) (b : Nat),
        mint_nft p k nm sy u r b = .error .InvalidMetadata ↔
          (32 < nm.length ∨ 10 < sy.length ∨ 200 < u.length)) ∧
      (∀ (w : World) (k nm sy u r : List Nat) (b : Nat),
        lookupRecord w.records k = none →
        (32 < nm.length ∨ 10 < sy.length ∨ 200 < u.length) →
        step w (.mint k nm sy u r b) =
          .error (.program .InvalidMetadata)) := by
  constructor
  · intro p k nm sy u r b
    exact mint_nft_invalid_metadata_iff p k nm sy u r b
  · intro w k nm sy u r b hl hbound
    have hm := (mint_nft_invalid_metadata_iff w.program k nm sy u r b).mpr
      hbound
    simp only [step]
    rw [hl]
    dsimp only
    rw [hm]

theorem c10_mint_metadata_validation_witness :
    mint_nft progEx mintKeyEx (List.replicate 33 97) [115] [104] pkOwner
      254 = .error .InvalidMetadata :=
  (c10_mint_metadata_validation.1 progEx mintKeyEx (List.replicate 33 97)
    [115] [104] pkOwner 254).mpr (by decide)

/-- C1 counterexample: `on_call`'s guard does not compare the caller with
`ProgramState.gateway`.  Here the state was initialized with gateway
`pkGw`, the caller IS exactly that recorded gateway, the payload is a
well-formed locked-asset `Unlock` message and its nonce is valid — yet the
call fails with `Unauthorized`, because the guard compares against the
hard-coded `gateway::ID` constant instead of the stored field. -/
theorem c1_counterexample :
    progEx.gateway = pkGw ∧
      CrossChainMessage.try_from_slice unlockMsgEx.encode =
        some unlockMsgEx ∧
      progEx.nonce < unlockMsgEx.nonce ∧ infoLockedEx.is_locked = true ∧
      on_call pkGw progEx infoLockedEx mintKeyEx 0 senderEx
        unlockMsgEx.encode 253 = .error .Unauthorized :=
  ⟨rfl, by decide, by decide, rfl, by decide⟩

/-- C1 (amended): before any inbound-call effect, `on_call` verifies via
the instruction-introspection sysvar (not a caller-supplied parameter)
that the immediate caller equals the hard-coded `gateway::ID` program
constant — NOT the gateway identity recorded in `ProgramState.gateway` at
initialization; on mismatch with that constant it fails with
`Unauthorized` before the payload is parsed or the nonce checked, so no
state is mutated, and every successful call's caller equals the
constant. -/
theorem c1_gateway_guard_hardcoded :
    (∀ (caller : List Nat) (p : NftProgramState) (i : NftInfo)
        (k : List Nat) (a : Nat) (s d : List Nat) (b : Nat),
        caller ≠ gatewayID →
        on_call caller p i k a s d b = .error .Unauthorized) ∧
      (∀ (caller : List Nat) (p : NftProgramState) (i : NftInfo)
        (k : List Nat) (a : Nat) (s d : List Nat) (b : Nat) q,
        on_call caller p i k a s d b = .ok q → caller = gatewayID) := by
  constructor
  · intro caller p i k a s d b hne
    unfold on_call
    rw [if_pos hne]
  · intro caller p i k a s d b q h
    exact ((on_call_ok_iff ..).mp h).1

theorem c1_gateway_guard_hardcoded_witness :
    on_call pkOwner progEx infoEx mintKeyEx 0 senderEx [] 253 =
      .error .Unauthorized :=
  c1_gateway_guard_hardcoded.1 pkOwner progEx infoEx mintKeyEx 0 senderEx
    [] 253 (by decide)

/-- C2: across every sequence of accepted operations, the stored nonce is
strictly increasing — every accepted nonce-gated step strictly raises it —
and for each of the four nonce-gated handlers an accepted call's nonce
strictly exceeds the stored value with the stored value set to it in the
same atomic result, while a nonce less than or equal to the stored value
(other preconditions holding) fails with `InvalidNonce`, which as an
aborted transaction leaves all state unchanged. -/
theorem c2_nonce_monotonicity :
    (∀ (w : World) (op : Op) (w' : World), step w op = .ok w' →
        isNonceOp op = true → w.program.nonce < w'.program.nonce) ∧
      (∀ (p : NftProgramState) (i : NftInfo) (o : List Nat) (d : Nat)
        (r : List Nat) (n : Nat) (p1 : NftProgramState) (i1 : NftInfo)
        (msg : List Nat),
        transfer_to_zetachain p i o d r n = .ok (p1, i1, msg) →
        p.nonce < n ∧ p1.nonce = n) ∧
      (∀ (p : NftProgramState) (i : NftInfo) (o : List Nat) (d : Nat)
        (r : List Nat) (n : Nat), i.owner = o → i.is_locked = false →
        n ≤ p.nonce →
        transfer_to_zetachain p i o d r n = .error .InvalidNonce) ∧
      (∀ (p : NftProgramState) (s : List Nat) (c : Nat) (msg : List Nat)
        (n : Nat) (p1 : NftProgramState),
        handle_cross_chain_call p s c msg n = .ok p1 →
        p.nonce < n ∧ p1.nonce = n) ∧
      (∀ (p : NftProgramState) (s : List Nat) (c : Nat) (msg : List Nat)
        (n : Nat), n ≤ p.nonce →
        handle_cross_chain_call p s c msg n = .error .InvalidNonce) ∧
      (∀ (caller : List Nat) (p : NftProgramState) (i : NftInfo)
        (k : List Nat) (a : Nat) (s d : List Nat) (b : Nat)
        (p1 : NftProgramState) (i1 : NftInfo) (m : CrossChainMessage),
        CrossChainMessage.try_from_slice d = some m →
        on_call caller p i k a s d b = .ok (p1, i1) →
        p.nonce < m.nonce ∧ p1.nonce = m.nonce) ∧
      (∀ (caller : List Nat) (p : NftProgramState) (i : NftInfo)
        (k : List Nat) (a : Nat) (s d : List Nat) (b : Nat)
        (m : CrossChainMessage), caller = gatewayID →
        CrossChainMessage.try_from_slice d = some m → m.nonce ≤ p.nonce →
        on_call caller p i k a s d b = .error .InvalidNonce) ∧
      (∀ (p : NftProgramState) (i : NftInfo) (n : Nat)
        (p1 : NftProgramState) (i1 : NftInfo),
        unlock_nft p i n = .ok (p1, i1) → p.nonce < n ∧ p1.nonce = n) ∧
      (∀ (p : NftProgramState) (i : NftInfo) (n : Nat),
        i.is_locked = true → n ≤ p.nonce →
        unlock_nft p i n = .error .InvalidNonce) := by
  refine ⟨?_, ?_, ?_, ?_, ?_, ?_, ?_, ?_, ?_⟩
  · intro w op w' h hop
    exact (step_nonce_mono h).2 hop
  · intro p i o d r n p1 i1 msg h
    obtain ⟨-, -, hlt, he⟩ := (transfer_ok_iff ..).mp h
    simp only [Prod.mk.injEq] at he
    obtain ⟨hp, -⟩ := he
    exact ⟨hlt, by rw [hp]⟩
  · intro p i o d r n ho hl hn
    unfold transfer_to_zetachain
    rw [if_neg (fun hh => hh ho), if_neg (by simp [hl]), if_pos hn]
  · intro p s c msg n p1 h
    obtain ⟨hlt, -, hp⟩ := (handleCC_ok_iff ..).mp h
    exact ⟨hlt, by rw [hp]⟩
  · intro p s c msg n hn
    unfold handle_cross_chain_call
    rw [if_pos hn]
  · intro caller p i k a s d b p1 i1 m hd h
    obtain ⟨-, m', hm', hlt, hbr⟩ := (on_call_ok_iff ..).mp h
    rw [hd] at hm'
    simp only [Option.some.injEq] at hm'
    subst hm'
    rcases hbr with ⟨-, -, he⟩ | ⟨-, -, he⟩ <;>
      · simp only [Prod.mk.injEq] at he
        obtain ⟨hp, -⟩ := he
        exact ⟨hlt, by rw [hp]⟩
  · intro caller p i k a s d b m hc hd hn
    unfold on_call
    rw [if_neg (by simp [hc]), hd]
    dsimp only
    rw [if_pos hn]
  · intro p i n p1 i1 h
    obtain ⟨-, hlt, he⟩ := (unlock_nft_ok_iff ..).mp h
    simp only [Prod.mk.injEq] at he
    obtain ⟨hp, -⟩ := he
    exact ⟨hlt, by rw [hp]⟩
  · intro p i n hl hn
    unfold unlock_nft
    rw [if_neg (by simp [hl]), if_pos hn]

theorem c2_nonce_monotonicity_witness :
    handle_cross_chain_call progEx senderEx 1 [] 0 =
      .error .InvalidNonce :=
  c2_nonce_monotonicity.2.2.2.2.1 progEx senderEx 1 [] 0 (by decide)

/-- C3 counterexample: a caller supplying nonce `1 > 0` with an
undecodable (empty) message does NOT get that nonce accepted and stored:
the call aborts with `InvalidMessage`, and as a failed transaction the
nonce write made before decoding is rolled back, so no state persists. -/
theorem c3_counterexample :
    progEx.nonce = 0 ∧
      handle_cross_chain_call progEx senderEx 1 [] 1 =
        .error .InvalidMessage :=
  ⟨rfl, by decide⟩

/-- C3 (amended): `handle_cross_chain_call` performs no gateway-caller
verification whatsoever — any caller whose supplied nonce is strictly
greater than the stored nonce and whose message decodes succeeds — the
nonce is checked before the message bytes are decoded (a stale nonce fails
with `InvalidNonce` even for garbage bytes), and on success the sole state
effect is setting the stored nonce to the caller-supplied parameter: no
record, balance or supply changes (an undecodable message aborts the
transaction, so in that case the early nonce write does not persist). -/
theorem c3_handle_no_auth_nonce_only :
    (∀ (w : World) (s : List Nat) (c : Nat) (msg : List Nat) (n : Nat)
        (w' : World), step w (.handleCC s c msg n) = .ok w' →
        w'.records = w.records ∧
          w'.program = { w.program with nonce := n }) ∧
      (∀ (p : NftProgramState) (s : List Nat) (c : Nat) (msg : List Nat)
        (n : Nat) (m : CrossChainMessage),
        CrossChainMessage.try_from_slice msg = some m → p.nonce < n →
        handle_cross_chain_call p s c msg n = .ok { p with nonce := n }) ∧
      (∀ (p : NftProgramState) (s : List Nat) (c : Nat) (msg : List Nat)
        (n : Nat), n ≤ p.nonce →
        handle_cross_chain_call p s c msg n = .error .InvalidNonce) := by
  refine ⟨?_, ?_, ?_⟩
  · intro w s c msg n w' h
    obtain ⟨-, -, rfl⟩ := step_handleCC_ok h
    exact ⟨rfl, rfl⟩
  · intro p s c msg n m hd hn
    exact (handleCC_ok_iff ..).mpr ⟨hn, ⟨m, hd⟩, rfl⟩
  · intro p s c msg n hn
    unfold handle_cross_chain_call
    rw [if_pos hn]

theorem c3_handle_no_auth_nonce_only_witness :
    handle_cross_chain_call progEx senderEx 1 unlockMsgEx.encode 1 =
      .ok { progEx with nonce := 1 } :=
  c3_handle_no_auth_nonce_only.2.1 progEx senderEx 1 unlockMsgEx.encode 1
    unlockMsgEx (by decide) (by decide)

/-- C5 counterexample: the claimed iff fails on a reachable state.
`transfer_to_zetachain` accepts an all-zero `recipient`, so after
`initialize`, `mint_nft`, and a lock with recipient `[0; 32]`, the stored
record is locked while `cross_chain_recipient` is all-zero. -/
theorem c5_counterexample :
    (run (initWorld pkAuth pkGw 255)
        [.mint mintKeyEx [110] [115] [104] pkOwner 254,
         .transferOut mintKeyEx pkOwner 7 (List.replicate 32 0) 1]).map
        (fun w => (lookupRecord w.records mintKeyEx).map
          (fun i => (i.is_locked, i.cross_chain_recipient))) =
      .ok (some (true, List.replicate 32 0)) := by decide

/-- C5 (amended): the lock/recipient coupling (`crossChainRecipient`
non-zero iff `isLocked`) holds for every record of every state reachable
from initialization by accepted operations, PROVIDED every
`transfer_to_zetachain` in the sequence supplies a non-zero recipient and
unlocking happens only through `on_call`'s `Unlock` branch (not
`unlock_nft`): the code neither rejects an all-zero lock recipient nor
clears the recipient in `unlock_nft`, and either exception breaks the
iff. -/
theorem c5_lock_recipient_coupling :
    ∀ (a g : List Nat) (sb : Nat) (ops : List Op) (w : World),
      run (initWorld a g sb) ops = .ok w →
      (∀ op ∈ ops, goodOp op = true) →
      ∀ (k : List Nat) (i : NftInfo), lookupRecord w.records k = some i →
        (i.is_locked = true ↔
          i.cross_chain_recipient ≠ List.replicate 32 0) := by
  intro a g sb ops w h hg k i hi
  exact run_coupled h hg
    (fun k0 i0 hi0 => by simp [initWorld, lookupRecord] at hi0) k i hi

theorem c5_lock_recipient_coupling_witness :
    infoEx.is_locked = true ↔
      infoEx.cross_chain_recipient ≠ List.replicate 32 0 :=
  c5_lock_recipient_coupling pkAuth pkGw 255 [mintOpEx] wMEx (by decide)
    (by decide) mintKeyEx infoEx (by decide)

/-- C8 counterexample: lock (recipient `rcptEx ≠ 0`) followed by a
successful `unlock_nft` does NOT clear `crossChainRecipient`: the record
comes back with the lock-time recipient still stored. -/
theorem c8_counterexample :
    (transfer_to_zetachain progEx infoEx pkOwner 7 rcptEx 1).bind
        (fun t => (unlock_nft t.1 t.2.1 2).map
          (fun u => u.2.cross_chain_recipient)) = .ok rcptEx ∧
      rcptEx ≠ List.replicate 32 0 :=
  ⟨by decide, by decide⟩

/-- C8 (amended): for an unlocked record, a successful
`transfer_to_zetachain` (lock) followed by a successful unlock restores
`owner` (which neither step modifies) and leaves `name`, `symbol` and
`metadataURI` unchanged; the inbound `Unlock` branch of `on_call`
additionally clears `crossChainRecipient` to zero bytes, but `unlock_nft`
leaves `crossChainRecipient` equal to the lock-time recipient — it does
not clear it. -/
theorem c8_custody_roundtrip :
    ∀ (p : NftProgramState) (i : NftInfo) (o : List Nat) (dc : Nat)
      (r : List Nat) (n1 : Nat) (p1 : NftProgramState) (i1 : NftInfo)
      (msg : List Nat),
      transfer_to_zetachain p i o dc r n1 = .ok (p1, i1, msg) →
      (∀ (caller k : List Nat) (a : Nat) (s d : List Nat) (b : Nat)
          (p2 : NftProgramState) (i2 : NftInfo) (m : CrossChainMessage),
          CrossChainMessage.try_from_slice d = some m →
          m.message_type = .Unlock →
          on_call caller p1 i1 k a s d b = .ok (p2, i2) →
          i2.owner = i.owner ∧ i2.is_locked = false ∧
            i2.cross_chain_recipient = List.replicate 32 0 ∧
            i2.name = i.name ∧ i2.symbol = i.symbol ∧
            i2.metadata_uri = i.metadata_uri) ∧
        (∀ (n2 : Nat) (p2 : NftProgramState) (i2 : NftInfo),
          unlock_nft p1 i1 n2 = .ok (p2, i2) →
          i2.owner = i.owner ∧ i2.is_locked = false ∧
            i2.cross_chain_recipient = r ∧
            i2.name = i.name ∧ i2.symbol = i.symbol ∧
            i2.metadata_uri = i.metadata_uri) := by
  intro p i o dc r n1 p1 i1 msg hlock
  obtain ⟨-, -, -, he⟩ := (transfer_ok_iff ..).mp hlock
  simp only [Prod.mk.injEq] at he
  obtain ⟨-, hi1, -⟩ := he
  subst hi1
  constructor
  · intro caller k a s d b p2 i2 m hd hmt h
    obtain ⟨-, m', hm', -, hbr⟩ := (on_call_ok_iff ..).mp h
    rw [hd] at hm'
    simp only [Option.some.injEq] at hm'
    subst hm'
    rcases hbr with ⟨ht, -⟩ | ⟨-, -, he2⟩
    · rw [hmt] at ht; cases ht
    · simp only [Prod.mk.injEq] at he2
      obtain ⟨-, hi2⟩ := he2
      subst hi2
      exact ⟨rfl, rfl, rfl, rfl, rfl, rfl⟩
  · intro n2 p2 i2 h
    obtain ⟨-, -, he2⟩ := (unlock_nft_ok_iff ..).mp h
    simp only [Prod.mk.injEq] at he2
    obtain ⟨-, hi2⟩ := he2
    subst hi2
    exact ⟨rfl, rfl, rfl, rfl, rfl, rfl⟩

theorem c8_custody_roundtrip_witness :
    info2Ex.owner = infoEx.owner ∧ info2Ex.is_locked = false ∧
      info2Ex.cross_chain_recipient = rcptEx ∧
      info2Ex.name = infoEx.name ∧ info2Ex.symbol = infoEx.symbol ∧
      info2Ex.metadata_uri = infoEx.metadata_uri :=
  (c8_custody_roundtrip progEx infoEx pkOwner 7 rcptEx 1 prog1Ex info1Ex
    msg1Ex (by decide)).2 2 prog2Ex info2Ex (by decide)

/-- C9: `totalSupply` never decreases under any accepted operation; each
successful mint (local `mint_nft` or inbound `Transfer` of `on_call`)
increments it by exactly 1, so over any accepted sequence it grows by
exactly the number of mints regardless of interleaved lock/unlock
operations; and at the `u64` maximum a mint fails with `Overflow` instead
of wrapping. -/
theorem c9_supply_accounting :
    (∀ (w : World) (op : Op) (w' : World), step w op = .ok w' →
        w.program.total_supply ≤ w'.program.total_supply) ∧
      (∀ (w : World) (op : Op) (w' : World), step w op = .ok w' →
        isMintOp op = true →
        w'.program.total_supply = w.program.total_supply + 1) ∧
      (∀ (w : World) (ops : List Op) (w' : World), run w ops = .ok w' →
        w'.program.total_supply =
          w.program.total_supply +
            ops.countP (fun op => isMintOp op)) ∧
      (∀ (p : NftProgramState) (k nm sy u r : List Nat) (b : Nat),
        p.total_supply = 2 ^ 64 - 1 → nm.length ≤ 32 → sy.length ≤ 10 →
        u.length ≤ 200 → mint_nft p k nm sy u r b = .error .Overflow) ∧
      (∀ (caller : List Nat) (p : NftProgramState) (i : NftInfo)
        (k : List Nat) (a : Nat) (s d : List Nat) (b : Nat)
        (m : CrossChainMessage), caller = gatewayID →
        CrossChainMessage.try_from_slice d = some m →
        m.message_type = .Transfer → p.nonce < m.nonce →
        p.total_supply = 2 ^ 64 - 1 →
        on_call caller p i k a s d b = .error .Overflow) := by
  refine ⟨?_, ?_, ?_, ?_, ?_⟩
  · intro w op w' h
    have := step_total_supply h
    by_cases hm : isMintOp op <;> simp [hm] at this <;> omega
  · intro w op w' h hm
    have := step_total_supply h
    rw [hm] at this
    simpa using this
  · intro w ops w' h
    exact run_total_supply h
  · intro p k nm sy u r b hmax hn hs hu
    unfold mint_nft u64CheckedAdd
    rw [if_neg (by omega), if_neg (by omega), if_neg (by omega),
      if_neg (by omega)]
  · intro caller p i k a s d b m hc hd hmt hn hmax
    unfold on_call
    rw [if_neg (by simp [hc]), hd]
    dsimp only
    rw [if_neg (by omega), hmt]
    dsimp only [pubkeyTryFrom]
    unfold u64CheckedAdd
    rw [if_neg (by simp; omega)]

theorem c9_supply_accounting_witness :
    mint_nft progMaxEx mintKeyEx [110] [115] [104] pkOwner 254 =
      .error .Overflow :=
  c9_supply_accounting.2.2.2.1 progMaxEx mintKeyEx [110] [115] [104]
    pkOwner 254 (by decide) (by decide) (by decide) (by decide)

end UniversalNft
